import Mathlib

/-
Verification of the rxjs-spy core instrumentation layer.

The development shallowly embeds the two source files of the repository:

* the spy core (SpyCore): the two-phase notification dispatcher notify_
  (tick increment, before callbacks, underlying action, after callbacks),
  the wrapped unsubscribe installed on the post-let subscriber, the
  constructor guard against double installation, and the ignore combinator
  that temporarily clears the active-spy reference;

* the snapshot plugin (SnapshotPlugin): the per-subscription snapshot
  record, the bounded value history maintained by beforeNext, the
  depth-first traversal addSubscriptionRefs_ over merges and sources, and
  snapshotAll with its since filter.

Machine state is passed explicitly; JavaScript exceptions are modelled with
Except; JavaScript Map objects are modelled as association lists with
set-or-overwrite semantics.  Event traces record which callbacks were
invoked and in which state, so that ordering and exactly-once properties
can be stated.
-/

namespace RxjsSpy

/-- One observable event of a dispatch: a before callback invocation, the
underlying action, or an after callback invocation.  Each event records
the index of the plugin invoked (for callbacks) and the state in which the
invocation happened. -/
inductive DEvent (σ : Type) where
  | beforeCall (i : Nat) (s : σ) : DEvent σ
  | actionRun (s : σ) : DEvent σ
  | afterCall (i : Nat) (s : σ) : DEvent σ
deriving DecidableEq, Repr

/-- True exactly on an actionRun event. -/
def DEvent.isAction {σ : Type} : DEvent σ → Bool
  | .actionRun _ => true
  | _ => false

/-- Index of a beforeCall event, none otherwise. -/
def DEvent.beforeIdx {σ : Type} : DEvent σ → Option Nat
  | .beforeCall i _ => some i
  | _ => none

/-- Index of an afterCall event, none otherwise. -/
def DEvent.afterIdx {σ : Type} : DEvent σ → Option Nat
  | .afterCall i _ => some i
  | _ => none

/-- True exactly on an afterCall event. -/
def DEvent.isAfter {σ : Type} : DEvent σ → Bool
  | .afterCall _ _ => true
  | _ => false

/-- State in which the underlying action ran, for an actionRun event. -/
def DEvent.actionState {σ : Type} : DEvent σ → Option σ
  | .actionRun s => some s
  | _ => none

/-- State recorded in an event. -/
def DEvent.state {σ : Type} : DEvent σ → σ
  | .beforeCall _ s => s
  | .actionRun s => s
  | .afterCall _ s => s

/-- Sequential run of one forEach phase of notify_ over total callbacks:
applies the callback of each listed plugin index in order, threading the
state, and records for each invocation the index and the state passed to
it. -/
def runPhase {σ : Type} (cb : Nat → σ → σ) : List Nat → σ → List (Nat × σ) × σ
  | [], s => ([], s)
  | i :: is, s =>
      let rest := runPhase cb is (cb i s)
      ((i, s) :: rest.1, rest.2)

/-- Result of one dispatch through notify_: the advanced tick, the final
state, and the trace of events in execution order. -/
structure NotifyResult (σ : Type) where
  tick : Nat
  state : σ
  trace : List (DEvent σ)
deriving DecidableEq, Repr

/-- Embedding of notify_ from the spy core (lines 347 to 352) for
callbacks that return normally: increment the tick, run every registered
plugin before callback in registration order, perform the block once, run
every after callback in registration order.  The n registered plugins are
indexed 0 to n-1 in registration order. -/
def notifyT {σ : Type} (n : Nat) (before : Nat → σ → σ) (block : σ → σ)
    (after : Nat → σ → σ) (tick : Nat) (s : σ) : NotifyResult σ :=
  let tick1 := tick + 1
  let bphase := runPhase before (List.range n) s
  let s1 := bphase.2
  let s2 := block s1
  let aphase := runPhase after (List.range n) s2
  ⟨tick1, aphase.2,
    bphase.1.map (fun p => DEvent.beforeCall p.1 p.2)
      ++ DEvent.actionRun s1
      :: aphase.1.map (fun p => DEvent.afterCall p.1 p.2)⟩

/-- Sequential run of one forEach phase of notify_ over callbacks that may
throw: invokes each listed callback in order until one throws; the trace
lists every invocation (the throwing one included), and the outcome is the
threaded state or the first exception.  This matches Array.prototype
forEach semantics, which propagates the first exception and stops. -/
def runCallbacks {σ ε : Type} (cb : Nat → σ → Except ε σ) :
    List Nat → σ → List (Nat × σ) × Except ε σ
  | [], s => ([], Except.ok s)
  | i :: is, s =>
      match cb i s with
      | Except.ok s1 =>
          let rest := runCallbacks cb is s1
          ((i, s) :: rest.1, rest.2)
      | Except.error e => ([(i, s)], Except.error e)

/-- Result of one dispatch through notify_ when callbacks may throw. -/
structure NotifyResultE (σ ε : Type) where
  tick : Nat
  trace : List (DEvent σ)
  outcome : Except ε σ
deriving Repr

/-- Embedding of notify_ from the spy core (lines 347 to 352) in a world
where plugin callbacks and the block may throw.  The source installs no
handler: the tick is incremented first, then the before forEach runs, then
the block, then the after forEach, and the first exception anywhere aborts
the rest of the dispatch and propagates to the caller. -/
def notifyE {σ ε : Type} (n : Nat) (before : Nat → σ → Except ε σ)
    (block : σ → Except ε σ) (after : Nat → σ → Except ε σ)
    (tick : Nat) (s : σ) : NotifyResultE σ ε :=
  let tick1 := tick + 1
  let bphase := runCallbacks before (List.range n) s
  let btrace := bphase.1.map (fun p => DEvent.beforeCall p.1 p.2)
  match bphase.2 with
  | Except.error e => ⟨tick1, btrace, Except.error e⟩
  | Except.ok s1 =>
      match block s1 with
      | Except.error e => ⟨tick1, btrace ++ [DEvent.actionRun s1], Except.error e⟩
      | Except.ok s2 =>
          let aphase := runCallbacks after (List.range n) s2
          ⟨tick1,
            btrace ++ DEvent.actionRun s1
              :: aphase.1.map (fun p => DEvent.afterCall p.1 p.2),
            aphase.2⟩

/-- State touched by the wrapped unsubscribe installed on the post-let
subscriber (spy core, lines 531 to 551), apart from the tick and the
one-shot flag: the unsubscribed flag of the subscription ref, the
subscription to the plugins subject, the number of calls made to the
original rxjs unsubscribe, and the per-subscription state owned by the
registered plugins. -/
structure USt (σ : Type) where
  refUnsubscribed : Bool
  pluginsSubUnsubscribed : Bool
  innerUnsubCalls : Nat
  pluginState : σ
deriving DecidableEq, Repr

/-- Outcome of one call to the wrapped unsubscribe: the value of the
one-shot postLetObserver.unsubscribed flag afterwards, the tick, the
state, and the trace of dispatcher events this call produced (empty when
no unsubscribe notification was dispatched). -/
structure UnsubOutcome (σ : Type) where
  observerUnsubscribed : Bool
  tick : Nat
  world : USt σ
  trace : List (DEvent (USt σ))
deriving DecidableEq, Repr

/-- Embedding of the wrapped postLetSubscriber.unsubscribe (spy core,
lines 531 to 551).  If the observer has not yet been unsubscribed, the
flag is set and a beforeUnsubscribe/afterUnsubscribe notification is
dispatched through notify_, whose block calls the original unsubscribe,
unsubscribes from the plugins subject and sets the unsubscribed flag on
the subscription ref.  Otherwise only the original unsubscribe is called.
Plugin unsubscribe callbacks act on their own per-subscription state (as
the snapshot plugin does), so they are lifted pointwise into the world. -/
def postLetSubscriberUnsubscribe {σ : Type} (n : Nat)
    (bu au : Nat → σ → σ) (observerUnsubscribed : Bool) (tick : Nat)
    (w : USt σ) : UnsubOutcome σ :=
  if observerUnsubscribed = false then
    let r := notifyT n
      (fun i s => { s with pluginState := bu i s.pluginState })
      (fun s => { s with
        innerUnsubCalls := s.innerUnsubCalls + 1,
        pluginsSubUnsubscribed := true,
        refUnsubscribed := true })
      (fun i s => { s with pluginState := au i s.pluginState })
      tick w
    ⟨true, r.tick, r.state, r.trace⟩
  else
    ⟨observerUnsubscribed, tick,
      { w with innerUnsubCalls := w.innerUnsubCalls + 1 }, []⟩

/-- Module-level state of the interception layer: the active-spy
reference SpyCore.spy_, whether Observable.prototype.subscribe has been
replaced by the intercepting version, and the tick counter of the active
instance. -/
structure GlobalState where
  spyRef : Option Nat
  subscribeIntercepted : Bool
  tick : Nat
deriving DecidableEq, Repr

/-- Embedding of the SpyCore constructor (spy core, lines 54 to 110,
restricted to the module-level state): if another instance is already
active it throws before executing any other statement, so the state is
returned unchanged; otherwise it installs itself as the active spy,
replaces Observable.prototype.subscribe and initialises the tick counter
to zero (line 85). -/
def SpyCore.construct (id : Nat) (g : GlobalState) :
    Except String Unit × GlobalState :=
  if g.spyRef.isSome then
    (Except.error "Already spying on Observable.prototype.subscribe.", g)
  else
    (Except.ok (), ⟨some id, true, 0⟩)

/-- Embedding of SpyCore.ignore (spy core, lines 150 to 160): clear the
active-spy reference, run the block (which may itself read and write the
module state and may throw), and in a finally clause restore the
active-spy reference to the instance on which ignore was called.  The
catch clause of the source rethrows the same error, so both outcomes pass
through unchanged. -/
def SpyCore.ignore {ε α : Type} (self : Nat)
    (block : GlobalState → Except ε α × GlobalState) (g : GlobalState) :
    Except ε α × GlobalState :=
  let g1 : GlobalState := { g with spyRef := none }
  let r := block g1
  (r.1, { r.2 with spyRef := some self })

/-- One notification batch together with the batches dispatched from
inside it: the block of a dispatch, or a plugin callback running during
it, may reenter the interception layer and dispatch further
notifications.  The children are those nested dispatches, in the order
they occur. -/
inductive Batch where
  | mk : List Batch → Batch

mutual

/-- Tick stamping of a whole dispatch tree, following notify_: on entry
the counter is incremented and the incremented value is the tick observed
by the callbacks of this batch (the stamp); then the nested dispatches
run in order, each advancing the counter further.  Returns the final
counter value and the stamps in dispatch order. -/
def dispatchBatch : Batch → Nat → Nat × List Nat
  | Batch.mk cs, tick =>
      let r := dispatchForest cs (tick + 1)
      (r.1, (tick + 1) :: r.2)

/-- Dispatches a sequence of sibling batches in order, threading the
counter. -/
def dispatchForest : List Batch → Nat → Nat × List Nat
  | [], tick => (tick, [])
  | c :: cs, tick =>
      let r := dispatchBatch c tick
      let rest := dispatchForest cs r.1
      (rest.1, r.2 ++ rest.2)

end

/-- One recorded value of a subscription: the tick and timestamp at which
it was observed, and the value itself (snapshot plugin, line 28). -/
structure ValueRecord (α : Type) where
  tick : Nat
  timestamp : Nat
  value : α
deriving DecidableEq, Repr

/-- Per-subscription mutable state kept by the snapshot plugin (snapshot
plugin, lines 22 to 30).  Error values are modelled as abstract numeric
codes. -/
structure SnapshotRef (α : Type) where
  complete : Bool
  error : Option Nat
  tick : Nat
  timestamp : Nat
  unsubscribed : Bool
  values : List (ValueRecord α)
  valuesFlushed : Nat
deriving DecidableEq, Repr

/-- Embedding of SnapshotPlugin.beforeSubscribe (snapshot plugin, lines
145 to 155, the snapshot-ref initialisation): a fresh ref with empty
value history, zero flushed count and cleared status flags, stamped with
the current tick and timestamp. -/
def SnapshotPlugin.freshSnapshotRef {α : Type} (spyTick timestamp : Nat) :
    SnapshotRef α :=
  ⟨false, none, spyTick, timestamp, false, [], 0⟩

/-- Embedding of SnapshotPlugin.beforeNext (snapshot plugin, lines 130 to
143): stamp the ref with the current tick, push the value, and if the
history now exceeds the retention bound keptValues, drop the oldest
entries down to the bound and add the number dropped to valuesFlushed.
The retention bound is an integer, as in the source. -/
def SnapshotPlugin.beforeNext {α : Type} (keptValues : Int)
    (spyTick timestamp : Nat) (value : α) (r : SnapshotRef α) :
    SnapshotRef α :=
  let r1 := { r with
    tick := spyTick,
    values := r.values ++ [⟨spyTick, timestamp, value⟩] }
  let count : Int := (r1.values.length : Int) - keptValues
  if 0 < count then
    { r1 with
      values := r1.values.drop count.toNat,
      valuesFlushed := r1.valuesFlushed + count.toNat }
  else
    r1

/-- Embedding of SnapshotPlugin.afterUnsubscribe (snapshot plugin, lines
109 to 114). -/
def SnapshotPlugin.afterUnsubscribe {α : Type} (spyTick : Nat)
    (r : SnapshotRef α) : SnapshotRef α :=
  { r with tick := spyTick, unsubscribed := true }

/-- Embedding of SnapshotPlugin.beforeComplete (snapshot plugin, lines
116 to 121). -/
def SnapshotPlugin.beforeComplete {α : Type} (spyTick : Nat)
    (r : SnapshotRef α) : SnapshotRef α :=
  { r with tick := spyTick, complete := true }

/-- Embedding of SnapshotPlugin.beforeError (snapshot plugin, lines 123
to 128). -/
def SnapshotPlugin.beforeError {α : Type} (spyTick : Nat) (e : Nat)
    (r : SnapshotRef α) : SnapshotRef α :=
  { r with tick := spyTick, error := some e }

/-- Delivery of a sequence of next events to one subscription: each event
carries the tick and timestamp at which it is dispatched and the value,
and is processed by beforeNext. -/
def deliverNexts {α : Type} (keptValues : Int) :
    List (Nat × Nat × α) → SnapshotRef α → SnapshotRef α
  | [], r => r
  | e :: es, r =>
      deliverNexts keptValues es
        (SnapshotPlugin.beforeNext keptValues e.1 e.2.1 e.2.2 r)

/-- The graph data of one subscription read by the snapshot plugin
(graph-plugin GraphRef interface used at snapshot plugin lines 182 to
183, 256 to 266 and 316 to 323).  Subscriptions are named by their keys
(process-unique identifiers). -/
structure GraphRefE where
  sink : Option Nat
  rootSink : Option Nat
  merges : List Nat
  sources : List Nat
  mergesFlushed : Nat
  sourcesFlushed : Nat
deriving DecidableEq, Repr

/-- Embedding of SnapshotPlugin.addSubscriptionRefs_ (snapshot plugin,
lines 316 to 323): record the ref in the map, then recurse into every
merge and then every source of its graph ref, in that order.  The source
performs no visited check before recursing, so the recursion is bounded
here by explicit fuel; none means the fuel was exhausted.  The returned
list is the sequence of refs on which the procedure was entered (and
map.set executed), in execution order. -/
def addSubscriptionRefs (g : Nat → GraphRefE) :
    Nat → Nat → Option (List Nat)
  | 0, _ => none
  | fuel + 1, ref =>
      (((g ref).merges ++ (g ref).sources).foldr
        (fun r acc =>
          match addSubscriptionRefs g fuel r, acc with
          | some vs, some ws => some (vs ++ ws)
          | _, _ => none) (some [])).map (fun vs => ref :: vs)

/-- Sequential traversal of a list of child refs, as performed by the two
forEach loops of addSubscriptionRefs_. -/
def addSubscriptionRefsList (g : Nat → GraphRefE) (fuel : Nat)
    (l : List Nat) : Option (List Nat) :=
  l.foldr
    (fun r acc =>
      match addSubscriptionRefs g fuel r, acc with
      | some vs, some ws => some (vs ++ ws)
      | _, _ => none) (some [])

/-- Embedding of SnapshotPlugin.getSubscriptionRefs_ (snapshot plugin,
lines 325 to 334): traverse from every source of the sentinel; the keys
of the resulting map are the visited refs with first occurrences kept. -/
def getSubscriptionRefs (g : Nat → GraphRefE) (fuel : Nat)
    (sentinelSources : List Nat) : Option (List Nat) :=
  (addSubscriptionRefsList g fuel sentinelSources).map
    (fun vs => vs.foldl (fun acc r => if r ∈ acc then acc else acc ++ [r]) [])

/-- The child refs the traversal recurses into from one ref: its merges
followed by its sources. -/
def childrenOf (g : Nat → GraphRefE) (r : Nat) : List Nat :=
  (g r).merges ++ (g r).sources

/-- Reachability along the merges and sources edges, the relation the
traversal is meant to cover. -/
inductive Reaches (g : Nat → GraphRefE) : Nat → Nat → Prop where
  | refl (r : Nat) : Reaches g r r
  | step {r c x : Nat} :
      c ∈ childrenOf g r → Reaches g c x → Reaches g r x

/-- Diamond-shaped graph: ref 0 has sources 1 and 2, which share the
single source 3 (a shared source reachable along two paths). -/
def gDiamond : Nat → GraphRefE
  | 0 => ⟨none, none, [], [1, 2], 0, 0⟩
  | 1 => ⟨none, none, [], [3], 0, 0⟩
  | 2 => ⟨none, none, [], [3], 0, 0⟩
  | _ => ⟨none, none, [], [], 0, 0⟩

/-- Rank function witnessing that the diamond graph is acyclic. -/
def rankDiamond : Nat → Nat
  | 0 => 2
  | 1 => 1
  | 2 => 1
  | _ => 0

/-- JavaScript Map.set on an association list: overwrite in place when
the key is present, append otherwise (insertion order preserved). -/
def mapSet {ν : Type} (m : List (Nat × ν)) (k : Nat) (v : ν) :
    List (Nat × ν) :=
  if m.any (fun p => p.1 = k) then
    m.map (fun p => if p.1 = k then (k, v) else p)
  else
    m ++ [(k, v)]

/-- JavaScript Map.get on an association list. -/
def mapGet {ν : Type} (m : List (Nat × ν)) (k : Nat) : Option ν :=
  (m.find? (fun p => p.1 = k)).map Prod.snd

/-- Key-set insertion preserving insertion order, as Map.set does for a
map used as a set of keys. -/
def keyInsert (l : List Nat) (k : Nat) : List Nat :=
  if k ∈ l then l else l ++ [k]

/-- One tracked subscription as seen by snapshotAll: the identities of
the ref, its observable, subscriber and subscription, the snapshot ref
holding its mutable state, and its graph ref.  The list of these, in
visit order, is what getSubscriptionRefs_ hands to snapshotAll. -/
structure TrackedRef (α : Type) where
  refId : Nat
  observableId : Nat
  subscriberId : Nat
  subscriptionId : Nat
  snap : SnapshotRef α
  graph : GraphRefE
deriving DecidableEq, Repr

/-- SubscriptionSnapshot (snapshot plugin, lines 70 to 88 and 199 to
217).  Graph edges refer to other subscription snapshots through their
subscription keys, which is how the source looks them up when relinking;
diagnostic fields derived by outside collaborators (stack trace, source map
resolution) are outside the model. -/
structure SubscriptionSnap (α : Type) where
  complete : Bool
  error : Option Nat
  id : Nat
  merges : List Nat
  mergesFlushed : Nat
  observableId : Nat
  rootSink : Option Nat
  sink : Option Nat
  sources : List Nat
  sourcesFlushed : Nat
  subscriberId : Nat
  subscriptionId : Nat
  tick : Nat
  timestamp : Nat
  unsubscribed : Bool
deriving DecidableEq, Repr

/-- SubscriberSnapshot (snapshot plugin, lines 61 to 68 and 220 to
235). -/
structure SubscriberSnap (α : Type) where
  id : Nat
  subscriptions : List Nat
  tick : Nat
  values : List (ValueRecord α)
  valuesFlushed : Nat
deriving DecidableEq, Repr

/-- ObservableSnapshot (snapshot plugin, lines 51 to 59 and 237 to 251);
the path, tag and type strings inferred by outside collaborators are outside the
model. -/
structure ObservableSnap where
  id : Nat
  subscriptions : List Nat
  tick : Nat
deriving DecidableEq, Repr

/-- Snapshot aggregate (snapshot plugin, lines 43 to 49): the three
top-level mappings and the tick at which the snapshot was taken; the
deferred source-map promise is outside the model. -/
structure SnapshotT (α : Type) where
  observables : List (Nat × ObservableSnap)
  subscribers : List (Nat × SubscriberSnap α)
  subscriptions : List (Nat × SubscriptionSnap α)
  tick : Nat
deriving DecidableEq, Repr

/-- First pass of snapshotAll (snapshot plugin, lines 178 to 252) for one
ref: materialise its SubscriptionSnapshot with empty edges, then merge it
into the subscriber and observable groups, taking the maximum tick and
concatenating values. -/
def snapshotPass1Step {α : Type} (acc : SnapshotT α) (ref : TrackedRef α) :
    SnapshotT α :=
  let subSnap : SubscriptionSnap α :=
    ⟨ref.snap.complete, ref.snap.error, ref.refId, [],
     ref.graph.mergesFlushed, ref.observableId, none, none, [],
     ref.graph.sourcesFlushed, ref.subscriberId, ref.subscriptionId,
     ref.snap.tick, ref.snap.timestamp, ref.snap.unsubscribed⟩
  let subscriptions := mapSet acc.subscriptions ref.subscriptionId subSnap
  let subscriberSnap : SubscriberSnap α :=
    match mapGet acc.subscribers ref.subscriberId with
    | none => ⟨ref.subscriberId, [], ref.snap.tick, [], 0⟩
    | some s => s
  let subscriberSnap : SubscriberSnap α :=
    { subscriberSnap with
      subscriptions := keyInsert subscriberSnap.subscriptions ref.subscriptionId,
      tick := max subscriberSnap.tick ref.snap.tick,
      values := subscriberSnap.values ++ ref.snap.values,
      valuesFlushed := subscriberSnap.valuesFlushed + ref.snap.valuesFlushed }
  let subscribers := mapSet acc.subscribers ref.subscriberId subscriberSnap
  let observableSnap : ObservableSnap :=
    match mapGet acc.observables ref.observableId with
    | none => ⟨ref.observableId, [], ref.snap.tick⟩
    | some s => s
  let observableSnap : ObservableSnap :=
    { observableSnap with
      subscriptions := keyInsert observableSnap.subscriptions ref.subscriptionId,
      tick := max observableSnap.tick ref.snap.tick }
  let observables := mapSet acc.observables ref.observableId observableSnap
  ⟨observables, subscribers, subscriptions, acc.tick⟩

/-- Second pass of snapshotAll (snapshot plugin, lines 254 to 267) for
one ref: relink the graph edges of its subscription snapshot from its
graph ref. -/
def snapshotPass2Step {α : Type} (acc : SnapshotT α) (ref : TrackedRef α) :
    SnapshotT α :=
  { acc with
    subscriptions := acc.subscriptions.map (fun p =>
      if p.1 = ref.subscriptionId then
        (p.1, { p.2 with
          sink := ref.graph.sink,
          rootSink := ref.graph.rootSink,
          merges := ref.graph.merges.foldl keyInsert p.2.merges,
          sources := ref.graph.sources.foldl keyInsert p.2.sources })
      else p) }

/-- Embedding of SnapshotPlugin.snapshotAll (snapshot plugin, lines 166
to 302) over the list of tracked refs produced by the graph traversal:
materialise and group (first pass), relink edges (second pass), sort each
subscriber value history by tick, then, when a prior snapshot is given,
delete from the three top-level mappings every entry whose tick is at
most the tick of that snapshot; the result carries the current tick. -/
def SnapshotPlugin.snapshotAll {α : Type} (refs : List (TrackedRef α))
    (spyTick : Nat) (since : Option (SnapshotT α)) : SnapshotT α :=
  let s1 := refs.foldl snapshotPass1Step ⟨[], [], [], 0⟩
  let s2 := refs.foldl snapshotPass2Step s1
  let s3 : SnapshotT α :=
    { s2 with subscribers := s2.subscribers.map (fun p =>
        (p.1, { p.2 with
          values := p.2.values.mergeSort (fun a b => a.tick ≤ b.tick) })) }
  let s4 : SnapshotT α :=
    match since with
    | none => s3
    | some prior =>
        ⟨s3.observables.filter (fun p => ¬ p.2.tick ≤ prior.tick),
         s3.subscribers.filter (fun p => ¬ p.2.tick ≤ prior.tick),
         s3.subscriptions.filter (fun p => ¬ p.2.tick ≤ prior.tick),
         s3.tick⟩
  { s4 with tick := spyTick }

/-- Consecutive tick stamps handed out starting right after counter value
t: the interval t+1, t+2, ..., t+n. -/
def stampInterval (t n : Nat) : List Nat :=
  (List.range n).map (fun k => t + 1 + k)

/-- Invariant carried through a single dispatch: the stamps are the
consecutive interval from right after the entry tick up to the final
tick. -/
def BatchStampsOk (b : Batch) (t : Nat) : Prop :=
  (dispatchBatch b t).2 = stampInterval t ((dispatchBatch b t).1 - t) ∧
    t < (dispatchBatch b t).1

/-- Invariant carried through a sequence of sibling dispatches. -/
def ForestStampsOk (cs : List Batch) (t : Nat) : Prop :=
  (dispatchForest cs t).2 = stampInterval t ((dispatchForest cs t).1 - t) ∧
    t ≤ (dispatchForest cs t).1

/-- The value record that beforeNext pushes for one delivered next event
(tick of delivery, timestamp, value). -/
def stampValue {α : Type} (e : Nat × Nat × α) : ValueRecord α :=
  ⟨e.1, e.2.1, e.2.2⟩

/-
Theorems.
-/

theorem stampInterval_succ (t n : Nat) :
    stampInterval t (n + 1) = (t + 1) :: stampInterval (t + 1) n := by
  unfold stampInterval
  rw [List.range_succ_eq_map, List.map_cons, List.map_map]
  refine congrArg₂ _ (by omega) (List.map_congr_left ?_)
  intro k _
  simp only [Function.comp]
  omega

theorem stampInterval_append (t a b : Nat) :
    stampInterval t a ++ stampInterval (t + a) b = stampInterval t (a + b) := by
  unfold stampInterval
  rw [List.range_add, List.map_append, List.map_map]
  refine congrArg _ (List.map_congr_left ?_)
  intro k _
  simp only [Function.comp]
  omega

theorem stampInterval_sorted (t n : Nat) :
    (stampInterval t n).Sorted (· < ·) := by
  unfold stampInterval
  exact (List.pairwise_lt_range n).map _ (by omega)

theorem stampInterval_glue (t f1 f2 : Nat) (h1 : t ≤ f1) (h2 : f1 ≤ f2) :
    stampInterval t (f1 - t) ++ stampInterval f1 (f2 - f1) =
      stampInterval t (f2 - t) := by
  have h3 : f1 = t + (f1 - t) := by omega
  calc stampInterval t (f1 - t) ++ stampInterval f1 (f2 - f1)
      = stampInterval t (f1 - t) ++ stampInterval (t + (f1 - t)) (f2 - f1) := by
        rw [← h3]
    _ = stampInterval t ((f1 - t) + (f2 - f1)) := stampInterval_append t _ _
    _ = stampInterval t (f2 - t) := by
        refine congrArg _ ?_
        omega

theorem stamps_case_mk (cs : List Batch) (tick : Nat)
    (ih : ForestStampsOk cs (tick + 1)) : BatchStampsOk (Batch.mk cs) tick := by
  obtain ⟨hs, hle⟩ := ih
  unfold BatchStampsOk
  simp only [dispatchBatch]
  refine ⟨?_, by omega⟩
  rw [hs]
  have h1 : (dispatchForest cs (tick + 1)).1 - tick =
      ((dispatchForest cs (tick + 1)).1 - (tick + 1)) + 1 := by omega
  rw [h1, stampInterval_succ]

theorem stamps_case_nil (tick : Nat) : ForestStampsOk [] tick := by
  unfold ForestStampsOk
  simp [dispatchForest, stampInterval]

theorem stamps_case_cons (c : Batch) (cs : List Batch) (tick : Nat)
    (ih1 : BatchStampsOk c tick)
    (ih2 : ForestStampsOk cs (dispatchBatch c tick).1) :
    ForestStampsOk (c :: cs) tick := by
  obtain ⟨hs1, hlt1⟩ := ih1
  obtain ⟨hs2, hle2⟩ := ih2
  unfold ForestStampsOk
  simp only [dispatchForest]
  refine ⟨?_, by omega⟩
  rw [hs1, hs2, stampInterval_glue tick (dispatchBatch c tick).1
    (dispatchForest cs (dispatchBatch c tick).1).1 (by omega) hle2]

theorem dispatchBatch_stamps (b : Batch) (t : Nat) : BatchStampsOk b t :=
  dispatchBatch.induct BatchStampsOk ForestStampsOk
    stamps_case_mk stamps_case_nil stamps_case_cons b t

theorem dispatchForest_stamps (cs : List Batch) (t : Nat) :
    ForestStampsOk cs t :=
  dispatchForest.induct BatchStampsOk ForestStampsOk
    stamps_case_mk stamps_case_nil stamps_case_cons cs t

/-- Claim C3.  The tick counter is initialised to zero by the SpyCore
constructor; dispatching any tree of notification batches (each batch may
dispatch nested batches from inside its callbacks) advances the counter
exactly once per batch, at batch entry; consequently the tick values
stamped onto the batches, in dispatch order, are strictly increasing,
never reused, and their number equals the final counter value when
dispatch starts from the fresh counter. -/
theorem tick_sequencing_strictly_increasing (id : Nat) (sI : Bool)
    (t0 : Nat) (f : List Batch) :
    ((SpyCore.construct id ⟨none, sI, t0⟩).2).tick = 0 ∧
    (dispatchForest f 0).2.Sorted (· < ·) ∧
    (dispatchForest f 0).2.Nodup ∧
    (dispatchForest f 0).2.length = (dispatchForest f 0).1 ∧
    (∀ x ∈ (dispatchForest f 0).2, 0 < x) := by
  obtain ⟨hs, hle⟩ := dispatchForest_stamps f 0
  have hsorted : (dispatchForest f 0).2.Sorted (· < ·) := by
    rw [hs]
    exact stampInterval_sorted 0 _
  refine ⟨by simp [SpyCore.construct], hsorted,
    hsorted.imp (fun h => Nat.ne_of_lt h), ?_, ?_⟩
  · rw [hs]
    simp [stampInterval]
  · intro x hx
    rw [hs] at hx
    simp only [stampInterval, List.mem_map, List.mem_range] at hx
    obtain ⟨k, _, hk⟩ := hx
    omega

theorem runPhase_fst {σ : Type} (cb : Nat → σ → σ) :
    ∀ (l : List Nat) (s : σ), ((runPhase cb l s).1).map Prod.fst = l := by
  intro l
  induction l with
  | nil => intro s; simp [runPhase]
  | cons i is ih => intro s; simp [runPhase, ih]

theorem runPhase_inv {σ : Type} (cb : Nat → σ → σ) (P : σ → Prop)
    (hcb : ∀ i s, P s → P (cb i s)) :
    ∀ (l : List Nat) (s : σ), P s →
      (∀ p ∈ (runPhase cb l s).1, P p.2) ∧ P (runPhase cb l s).2 := by
  intro l
  induction l with
  | nil =>
      intro s hP
      exact ⟨by simp [runPhase], hP⟩
  | cons i is ih =>
      intro s hP
      obtain ⟨h1, h2⟩ := ih (cb i s) (hcb i s hP)
      refine ⟨?_, h2⟩
      intro p hp
      simp only [runPhase, List.mem_cons] at hp
      rcases hp with hp | hp
      · rw [hp]; exact hP
      · exact h1 p hp

theorem filterMap_beforeIdx_beforeCalls {σ : Type} (l : List (Nat × σ)) :
    (l.map fun p => DEvent.beforeCall p.1 p.2).filterMap DEvent.beforeIdx =
      l.map Prod.fst := by
  induction l with
  | nil => simp
  | cons p ps ih => simp [DEvent.beforeIdx, ih]

theorem filterMap_beforeIdx_afterCalls {σ : Type} (l : List (Nat × σ)) :
    (l.map fun p => DEvent.afterCall p.1 p.2).filterMap DEvent.beforeIdx =
      [] := by
  induction l with
  | nil => simp
  | cons p ps ih => simp [DEvent.beforeIdx, ih]

theorem filterMap_afterIdx_afterCalls {σ : Type} (l : List (Nat × σ)) :
    (l.map fun p => DEvent.afterCall p.1 p.2).filterMap DEvent.afterIdx =
      l.map Prod.fst := by
  induction l with
  | nil => simp
  | cons p ps ih => simp [DEvent.afterIdx, ih]

theorem filterMap_afterIdx_beforeCalls {σ : Type} (l : List (Nat × σ)) :
    (l.map fun p => DEvent.beforeCall p.1 p.2).filterMap DEvent.afterIdx =
      [] := by
  induction l with
  | nil => simp
  | cons p ps ih => simp [DEvent.afterIdx, ih]

theorem filterMap_actionState_beforeCalls {σ : Type} (l : List (Nat × σ)) :
    (l.map fun p => DEvent.beforeCall p.1 p.2).filterMap DEvent.actionState =
      [] := by
  induction l with
  | nil => simp
  | cons p ps ih => simp [DEvent.actionState, ih]

theorem filterMap_actionState_afterCalls {σ : Type} (l : List (Nat × σ)) :
    (l.map fun p => DEvent.afterCall p.1 p.2).filterMap DEvent.actionState =
      [] := by
  induction l with
  | nil => simp
  | cons p ps ih => simp [DEvent.actionState, ih]

theorem notifyT_trace_cases {σ : Type} (n : Nat) (bf : Nat → σ → σ)
    (blk : σ → σ) (af : Nat → σ → σ) (t : Nat) (s : σ) (e : DEvent σ)
    (he : e ∈ (notifyT n bf blk af t s).trace) :
    (∃ p ∈ (runPhase bf (List.range n) s).1,
        e = DEvent.beforeCall p.1 p.2) ∨
    e = DEvent.actionRun ((runPhase bf (List.range n) s).2) ∨
    (∃ p ∈ (runPhase af (List.range n)
        (blk ((runPhase bf (List.range n) s).2))).1,
        e = DEvent.afterCall p.1 p.2) := by
  have he2 : e ∈
      ((runPhase bf (List.range n) s).1.map
        fun p => DEvent.beforeCall p.1 p.2)
      ++ DEvent.actionRun ((runPhase bf (List.range n) s).2)
      :: ((runPhase af (List.range n)
            (blk ((runPhase bf (List.range n) s).2))).1.map
          fun p => DEvent.afterCall p.1 p.2) := he
  rw [List.mem_append, List.mem_cons] at he2
  rcases he2 with h | h | h
  · obtain ⟨p, hp, hpe⟩ := List.mem_map.mp h
    exact Or.inl ⟨p, hp, hpe.symm⟩
  · exact Or.inr (Or.inl h)
  · obtain ⟨p, hp, hpe⟩ := List.mem_map.mp h
    exact Or.inr (Or.inr ⟨p, hp, hpe.symm⟩)

/-- Claim C6.  For every dispatched lifecycle event the trace of notify_
consists of the before callbacks of plugins 0 to n-1 in registration
order, then the single action, performed exactly once and in the state
produced by completing all before callbacks, then the after callbacks in
registration order; and in the unsubscribe dispatch installed on the
post-let subscriber, every after callback observes the subscription ref
with its unsubscribed flag already set to true. -/
theorem notify_two_phase_order {σ σ2 : Type} (n : Nat) (bf : Nat → σ → σ)
    (blk : σ → σ) (af : Nat → σ → σ) (t : Nat) (s : σ)
    (m : Nat) (bu au : Nat → σ2 → σ2) (t2 : Nat) (w : USt σ2) :
    (notifyT n bf blk af t s).trace =
      ((runPhase bf (List.range n) s).1.map fun p => DEvent.beforeCall p.1 p.2)
        ++ DEvent.actionRun ((runPhase bf (List.range n) s).2)
        :: ((runPhase af (List.range n)
              (blk ((runPhase bf (List.range n) s).2))).1.map
            fun p => DEvent.afterCall p.1 p.2) ∧
    (notifyT n bf blk af t s).trace.filterMap DEvent.beforeIdx =
      List.range n ∧
    (notifyT n bf blk af t s).trace.filterMap DEvent.afterIdx =
      List.range n ∧
    (notifyT n bf blk af t s).trace.filterMap DEvent.actionState =
      [(runPhase bf (List.range n) s).2] ∧
    (notifyT n bf blk af t s).tick = t + 1 ∧
    (∀ e ∈ (postLetSubscriberUnsubscribe m bu au false t2 w).trace,
      e.isAfter = true → (e.state).refUnsubscribed = true) := by
  refine ⟨rfl, ?_, ?_, ?_, rfl, ?_⟩
  · show (((runPhase bf (List.range n) s).1.map
        fun p => DEvent.beforeCall p.1 p.2)
      ++ DEvent.actionRun ((runPhase bf (List.range n) s).2)
      :: ((runPhase af (List.range n)
            (blk ((runPhase bf (List.range n) s).2))).1.map
          fun p => DEvent.afterCall p.1 p.2)).filterMap DEvent.beforeIdx =
      List.range n
    rw [List.filterMap_append, List.filterMap_cons]
    simp only [DEvent.beforeIdx, filterMap_beforeIdx_beforeCalls,
      filterMap_beforeIdx_afterCalls, runPhase_fst, List.append_nil]
  · show (((runPhase bf (List.range n) s).1.map
        fun p => DEvent.beforeCall p.1 p.2)
      ++ DEvent.actionRun ((runPhase bf (List.range n) s).2)
      :: ((runPhase af (List.range n)
            (blk ((runPhase bf (List.range n) s).2))).1.map
          fun p => DEvent.afterCall p.1 p.2)).filterMap DEvent.afterIdx =
      List.range n
    rw [List.filterMap_append, List.filterMap_cons]
    simp only [DEvent.afterIdx, filterMap_afterIdx_afterCalls,
      filterMap_afterIdx_beforeCalls, runPhase_fst, List.nil_append]
  · show (((runPhase bf (List.range n) s).1.map
        fun p => DEvent.beforeCall p.1 p.2)
      ++ DEvent.actionRun ((runPhase bf (List.range n) s).2)
      :: ((runPhase af (List.range n)
            (blk ((runPhase bf (List.range n) s).2))).1.map
          fun p => DEvent.afterCall p.1 p.2)).filterMap DEvent.actionState =
      [(runPhase bf (List.range n) s).2]
    rw [List.filterMap_append, List.filterMap_cons]
    simp only [DEvent.actionState, filterMap_actionState_beforeCalls,
      filterMap_actionState_afterCalls, List.nil_append, List.append_nil]
  · intro e he hafter
    have he2 : e ∈ (notifyT m
        (fun i (u : USt σ2) => { u with pluginState := bu i u.pluginState })
        (fun (u : USt σ2) => { u with
          innerUnsubCalls := u.innerUnsubCalls + 1,
          pluginsSubUnsubscribed := true,
          refUnsubscribed := true })
        (fun i (u : USt σ2) => { u with pluginState := au i u.pluginState })
        t2 w).trace := he
    rcases notifyT_trace_cases _ _ _ _ _ _ _ he2 with h | h | h
    · obtain ⟨p, _, hp⟩ := h
      rw [hp] at hafter
      simp [DEvent.isAfter] at hafter
    · rw [h] at hafter
      simp [DEvent.isAfter] at hafter
    · obtain ⟨p, hpmem, hp⟩ := h
      have hP := (runPhase_inv
        (fun i (u : USt σ2) => { u with pluginState := au i u.pluginState })
        (fun u => u.refUnsubscribed = true)
        (fun i u h => h) (List.range m) _ (by rfl)).1 p hpmem
      rw [hp]
      simpa [DEvent.state] using hP

theorem postLetUnsub_flag_true {σ : Type} (n : Nat) (bu au : Nat → σ → σ)
    (flag : Bool) (t : Nat) (w : USt σ) :
    (postLetSubscriberUnsubscribe n bu au flag t w).observerUnsubscribed =
      true := by
  cases flag <;> simp [postLetSubscriberUnsubscribe]

/-- Claim C7.  Unsubscription is idempotent: calling the wrapped
unsubscribe a second time, with the flag, tick and world produced by the
first call, dispatches no beforeUnsubscribe/afterUnsubscribe notification
(the trace is empty), does not advance the tick counter, and leaves every
piece of tracked per-subscription state (the plugin state, the
unsubscribed flags) exactly as the first call left it. -/
theorem unsubscribe_idempotent {σ : Type} (n : Nat) (bu au : Nat → σ → σ)
    (flag : Bool) (t : Nat) (w : USt σ) :
    (postLetSubscriberUnsubscribe n bu au
      (postLetSubscriberUnsubscribe n bu au flag t w).observerUnsubscribed
      (postLetSubscriberUnsubscribe n bu au flag t w).tick
      (postLetSubscriberUnsubscribe n bu au flag t w).world).trace = [] ∧
    (postLetSubscriberUnsubscribe n bu au
      (postLetSubscriberUnsubscribe n bu au flag t w).observerUnsubscribed
      (postLetSubscriberUnsubscribe n bu au flag t w).tick
      (postLetSubscriberUnsubscribe n bu au flag t w).world).tick =
      (postLetSubscriberUnsubscribe n bu au flag t w).tick ∧
    (postLetSubscriberUnsubscribe n bu au
      (postLetSubscriberUnsubscribe n bu au flag t w).observerUnsubscribed
      (postLetSubscriberUnsubscribe n bu au flag t w).tick
      (postLetSubscriberUnsubscribe n bu au flag t w).world).world.pluginState =
      (postLetSubscriberUnsubscribe n bu au flag t w).world.pluginState ∧
    (postLetSubscriberUnsubscribe n bu au
      (postLetSubscriberUnsubscribe n bu au flag t w).observerUnsubscribed
      (postLetSubscriberUnsubscribe n bu au flag t w).tick
      (postLetSubscriberUnsubscribe n bu au flag t w).world).world.refUnsubscribed =
      (postLetSubscriberUnsubscribe n bu au flag t w).world.refUnsubscribed ∧
    (postLetSubscriberUnsubscribe n bu au
      (postLetSubscriberUnsubscribe n bu au flag t w).observerUnsubscribed
      (postLetSubscriberUnsubscribe n bu au flag t w).tick
      (postLetSubscriberUnsubscribe n bu au flag t w).world).observerUnsubscribed =
      (postLetSubscriberUnsubscribe n bu au flag t w).observerUnsubscribed := by
  rw [postLetUnsub_flag_true]
  simp [postLetSubscriberUnsubscribe, postLetUnsub_flag_true]

/-- Claim C9.  Constructing a second instrumentation instance while one
is already active throws at construction time and leaves the module
state, in particular the already-active spy reference and the intercepted
Observable.prototype.subscribe, exactly unchanged. -/
theorem construct_second_instance_fails (id k : Nat) (g : GlobalState)
    (h : g.spyRef = some k) :
    (SpyCore.construct id g).1 =
      Except.error "Already spying on Observable.prototype.subscribe." ∧
    (SpyCore.construct id g).2 = g := by
  simp [SpyCore.construct, h]

theorem construct_second_instance_fails_witness :
    (SpyCore.construct 1 ⟨some 0, true, 5⟩).1 =
      Except.error "Already spying on Observable.prototype.subscribe." ∧
    (SpyCore.construct 1 ⟨some 0, true, 5⟩).2 = ⟨some 0, true, 5⟩ :=
  construct_second_instance_fails 1 0 ⟨some 0, true, 5⟩ rfl

/-- Claim C10.  SpyCore.ignore always restores the active-spy reference
to the instance on which it was called, whether the block returns
normally or throws, and passes the outcome of the block through
unchanged: a normal return yields the block result and a throw re-raises
the same exception. -/
theorem ignore_restores_spy {ε α : Type} (self : Nat)
    (block : GlobalState → Except ε α × GlobalState) (g : GlobalState) :
    (SpyCore.ignore self block g).1 =
      (block { g with spyRef := none }).1 ∧
    (SpyCore.ignore self block g).2.spyRef = some self :=
  ⟨rfl, rfl⟩

/-- Claim C1, counterexample.  With two registered observers whose
before-callbacks are invoked by notify_ for one next event, the first
observer throwing makes the dispatcher: skip the underlying action (no
actionRun event), skip the second observer and both after phases (the
only event is the invocation of observer 0), and propagate the exception
to the tracked computation (the outcome is that error), with the tick
still advanced.  This contradicts the claim that the action is still
performed, that the remaining observers still run, and that no exception
propagates. -/
theorem notify_observer_throw_counterexample :
    notifyE 2 (fun i (s : Nat) => if i = 0 then Except.error 7 else Except.ok s)
      (fun s => Except.ok (s + 100)) (fun _ s => Except.ok s) 0 5 =
      ⟨1, [DEvent.beforeCall 0 5], Except.error 7⟩ ∧
    (notifyE 2 (fun i (s : Nat) => if i = 0 then Except.error 7 else Except.ok s)
      (fun s => Except.ok (s + 100)) (fun _ s => Except.ok s) 0 5).trace.filterMap
      DEvent.actionState = [] ∧
    (notifyE 2 (fun i (s : Nat) => if i = 0 then Except.error 7 else Except.ok s)
      (fun s => Except.ok (s + 100)) (fun _ s => Except.ok s) 0 5).trace.filterMap
      DEvent.beforeIdx = [0] := by
  refine ⟨rfl, rfl, rfl⟩

/-- Claim C1, amended.  If the before phase of a dispatch fails — the
sequential run of the before callbacks stops at a throwing observer with
error e after the invocations evs — then notify_ still advances the tick
once, but the underlying action is not performed, no further callback of
that event runs, and e propagates into the tracked computation: the
dispatcher installs no exception handler. -/
theorem notify_before_throw_aborts_dispatch {σ ε : Type} (n : Nat)
    (before : Nat → σ → Except ε σ) (block : σ → Except ε σ)
    (after : Nat → σ → Except ε σ) (t : Nat) (s : σ)
    (evs : List (Nat × σ)) (e : ε)
    (h : runCallbacks before (List.range n) s = (evs, Except.error e)) :
    notifyE n before block after t s =
      ⟨t + 1, evs.map (fun p => DEvent.beforeCall p.1 p.2),
        Except.error e⟩ := by
  unfold notifyE
  rw [h]

theorem notify_before_throw_aborts_dispatch_witness :
    runCallbacks (fun i (s : Nat) => if i = 0 then Except.error 7 else Except.ok s)
      (List.range 2) 5 = ([(0, 5)], Except.error 7) ∧
    notifyE 2 (fun i (s : Nat) => if i = 0 then Except.error 7 else Except.ok s)
      (fun s => Except.ok (s + 100)) (fun _ s => Except.ok s) 0 5 =
      ⟨1, [DEvent.beforeCall 0 5], Except.error 7⟩ :=
  ⟨rfl, notify_before_throw_aborts_dispatch 2 _ _ _ 0 5 [(0, 5)] 7 rfl⟩

theorem all_filter_lt {β : Type} (f : β → Nat) (tk : Nat) (l : List β) :
    ((l.filter fun x => ¬ f x ≤ tk).all fun x => tk < f x) = true := by
  simp only [List.all_eq_true, List.mem_filter, decide_eq_true_eq]
  intro x hx
  have := hx.2
  simp only [decide_not, Bool.not_eq_true', decide_eq_false_iff_not] at this
  omega

/-- Claim C5.  Every entity left in the three top-level mappings of a
snapshot taken since a prior snapshot has a tick strictly greater than
the tick of the prior snapshot. -/
theorem snapshotAll_since_filters_stale {α : Type}
    (refs : List (TrackedRef α)) (spyTick : Nat) (prior : SnapshotT α) :
    ((SnapshotPlugin.snapshotAll refs spyTick (some prior)).observables.all
      fun p => prior.tick < p.2.tick) = true ∧
    ((SnapshotPlugin.snapshotAll refs spyTick (some prior)).subscribers.all
      fun p => prior.tick < p.2.tick) = true ∧
    ((SnapshotPlugin.snapshotAll refs spyTick (some prior)).subscriptions.all
      fun p => prior.tick < p.2.tick) = true := by
  refine ⟨?_, ?_, ?_⟩
  · exact all_filter_lt (fun (p : Nat × ObservableSnap) => p.2.tick)
      prior.tick _
  · exact all_filter_lt (fun (p : Nat × SubscriberSnap α) => p.2.tick)
      prior.tick _
  · exact all_filter_lt (fun (p : Nat × SubscriptionSnap α) => p.2.tick)
      prior.tick _

/-- Claim C8.  Taking two snapshots with no intervening lifecycle
notification (the tracked refs and the tick are unchanged in between)
yields semantically equal results: equal snapshot tick, equal key
sequences for the three top-level mappings, and equal per-entity
snapshot records.  In this embedding snapshotAll reads the tracked state
and does not modify it, so the two results agree componentwise. -/
theorem snapshotAll_deterministic {α : Type} (refs : List (TrackedRef α))
    (spyTick : Nat) :
    (SnapshotPlugin.snapshotAll refs spyTick none).tick =
      (SnapshotPlugin.snapshotAll refs spyTick none).tick ∧
    (SnapshotPlugin.snapshotAll refs spyTick none).observables.map Prod.fst =
      (SnapshotPlugin.snapshotAll refs spyTick none).observables.map Prod.fst ∧
    (SnapshotPlugin.snapshotAll refs spyTick none).subscribers.map Prod.fst =
      (SnapshotPlugin.snapshotAll refs spyTick none).subscribers.map Prod.fst ∧
    (SnapshotPlugin.snapshotAll refs spyTick none).subscriptions.map Prod.fst =
      (SnapshotPlugin.snapshotAll refs spyTick none).subscriptions.map Prod.fst ∧
    SnapshotPlugin.snapshotAll refs spyTick none =
      SnapshotPlugin.snapshotAll refs spyTick none :=
  ⟨rfl, rfl, rfl, rfl, rfl⟩

theorem beforeNext_step {α : Type} (kept : Int) (hk : 0 ≤ kept)
    (r : SnapshotRef α) (tick ts : Nat) (v : α) :
    (SnapshotPlugin.beforeNext kept tick ts v r).values =
      (r.values ++ [(⟨tick, ts, v⟩ : ValueRecord α)]).drop
        ((r.values.length + 1) - kept.toNat) ∧
    (SnapshotPlugin.beforeNext kept tick ts v r).valuesFlushed =
      r.valuesFlushed + ((r.values.length + 1) - kept.toNat) ∧
    (SnapshotPlugin.beforeNext kept tick ts v r).values.length =
      min (r.values.length + 1) kept.toNat := by
  have hK : ((kept.toNat : Int)) = kept := Int.toNat_of_nonneg hk
  simp only [SnapshotPlugin.beforeNext, List.length_append,
    List.length_singleton]
  split
  · rename_i hc
    have htn : ((((r.values.length + 1 : Nat)) : Int) - kept).toNat =
        (r.values.length + 1) - kept.toNat := by omega
    refine ⟨?_, ?_, ?_⟩
    · show List.drop ((((r.values.length + 1 : Nat)) : Int) - kept).toNat
        (r.values ++ [(⟨tick, ts, v⟩ : ValueRecord α)]) = _
      rw [htn]
    · show r.valuesFlushed +
        ((((r.values.length + 1 : Nat)) : Int) - kept).toNat = _
      rw [htn]
    · show (List.drop ((((r.values.length + 1 : Nat)) : Int) - kept).toNat
        (r.values ++ [(⟨tick, ts, v⟩ : ValueRecord α)])).length = _
      rw [List.length_drop, htn]
      simp only [List.length_append, List.length_singleton]
      omega
  · rename_i hc
    have hz : (r.values.length + 1) - kept.toNat = 0 := by omega
    refine ⟨?_, ?_, ?_⟩
    · show r.values ++ [(⟨tick, ts, v⟩ : ValueRecord α)] = _
      rw [hz, List.drop_zero]
    · show r.valuesFlushed = _
      rw [hz, Nat.add_zero]
    · show (r.values ++ [(⟨tick, ts, v⟩ : ValueRecord α)]).length = _
      simp only [List.length_append, List.length_singleton]
      omega

theorem deliverNexts_spec {α : Type} (kept : Int) (hk : 0 ≤ kept) :
    ∀ (es : List (Nat × Nat × α)) (r : SnapshotRef α),
      r.values.length ≤ kept.toNat →
      (deliverNexts kept es r).values =
        (r.values ++ es.map stampValue).drop
          ((r.values.length + es.length) - kept.toNat) ∧
      (deliverNexts kept es r).valuesFlushed +
        (deliverNexts kept es r).values.length =
        r.valuesFlushed + r.values.length + es.length ∧
      (deliverNexts kept es r).values.length ≤ kept.toNat := by
  intro es
  induction es with
  | nil =>
      intro r hr
      have hz : (r.values.length + ([] : List (Nat × Nat × α)).length) -
          kept.toNat = 0 := by
        simp only [List.length_nil]
        omega
      refine ⟨?_, by simp [deliverNexts], by simpa [deliverNexts] using hr⟩
      simp only [deliverNexts, List.map_nil, List.append_nil, hz,
        List.drop_zero]
  | cons e es ih =>
      intro r hr
      obtain ⟨h1, h2, h3⟩ := beforeNext_step kept hk r e.1 e.2.1 e.2.2
      have hr2 : (SnapshotPlugin.beforeNext kept e.1 e.2.1 e.2.2 r).values.length ≤
          kept.toNat := by
        rw [h3]; omega
      obtain ⟨g1, g2, g3⟩ := ih (SnapshotPlugin.beforeNext kept e.1 e.2.1 e.2.2 r) hr2
      have hstep : deliverNexts kept (e :: es) r =
          deliverNexts kept es (SnapshotPlugin.beforeNext kept e.1 e.2.1 e.2.2 r) := rfl
      have hd1 : (r.values.length + 1) - kept.toNat ≤
          (r.values ++ [(⟨e.1, e.2.1, e.2.2⟩ : ValueRecord α)]).length := by
        simp only [List.length_append, List.length_singleton]
        omega
      refine ⟨?_, ?_, by rw [hstep]; exact g3⟩
      · rw [hstep, g1, h1]
        rw [← List.drop_append_of_le_length hd1, List.drop_drop]
        have harr : (r.values ++ [(⟨e.1, e.2.1, e.2.2⟩ : ValueRecord α)]) ++
            es.map stampValue =
            r.values ++ (e :: es).map stampValue := by
          rw [List.map_cons, List.append_assoc, List.singleton_append]
          rfl
        rw [harr]
        refine congrArg₂ _ ?_ rfl
        rw [h1] at h3
        simp only [List.length_drop, List.length_append,
          List.length_singleton, List.length_cons] at h3 ⊢
        omega
      · rw [hstep, g2, h2, h3]
        simp only [List.length_cons]
        omega

/-- Claim C4.  Starting from the fresh snapshot ref created at subscribe
time and delivering any sequence of next events with a nonnegative
retention bound keptValues: the value history never grows beyond
keptValues entries, the history is exactly the most recent values in
delivery order (the delivered sequence with all but the last keptValues
entries dropped), and valuesFlushed plus the history length equals the
total number of next events delivered.  Since every initial segment of a delivery
sequence is itself a delivery sequence, these hold after each
beforeNext. -/
theorem value_history_bounded_and_conserved {α : Type} (kept : Int)
    (hk : 0 ≤ kept) (t0 ts0 : Nat) (es : List (Nat × Nat × α)) :
    (deliverNexts kept es
      (SnapshotPlugin.freshSnapshotRef t0 ts0)).values.length ≤
      kept.toNat ∧
    (deliverNexts kept es
      (SnapshotPlugin.freshSnapshotRef t0 ts0)).valuesFlushed +
      (deliverNexts kept es
        (SnapshotPlugin.freshSnapshotRef t0 ts0)).values.length =
      es.length ∧
    (deliverNexts kept es
      (SnapshotPlugin.freshSnapshotRef t0 ts0)).values =
      (es.map stampValue).drop (es.length - kept.toNat) := by
  obtain ⟨h1, h2, h3⟩ := deliverNexts_spec kept hk es
    (SnapshotPlugin.freshSnapshotRef t0 ts0) (by
      simp [SnapshotPlugin.freshSnapshotRef])
  refine ⟨h3, ?_, ?_⟩
  · simpa [SnapshotPlugin.freshSnapshotRef] using h2
  · simpa [SnapshotPlugin.freshSnapshotRef] using h1

theorem value_history_bounded_and_conserved_witness :
    0 ≤ (4 : Int) ∧
    ((deliverNexts 4
      [(1, 1, 10), (2, 2, 20), (3, 3, 30), (4, 4, 40), (5, 5, 50), (6, 6, 60)]
      (SnapshotPlugin.freshSnapshotRef 0 0)).values.length ≤
      (4 : Int).toNat ∧
    (deliverNexts 4
      [(1, 1, 10), (2, 2, 20), (3, 3, 30), (4, 4, 40), (5, 5, 50), (6, 6, 60)]
      (SnapshotPlugin.freshSnapshotRef 0 0)).valuesFlushed +
      (deliverNexts 4
        [(1, 1, 10), (2, 2, 20), (3, 3, 30), (4, 4, 40), (5, 5, 50), (6, 6, 60)]
        (SnapshotPlugin.freshSnapshotRef 0 0)).values.length =
      ([(1, 1, 10), (2, 2, 20), (3, 3, 30), (4, 4, 40), (5, 5, 50),
        (6, 6, 60)] : List (Nat × Nat × Nat)).length ∧
    (deliverNexts 4
      [(1, 1, 10), (2, 2, 20), (3, 3, 30), (4, 4, 40), (5, 5, 50), (6, 6, 60)]
      (SnapshotPlugin.freshSnapshotRef 0 0)).values =
      (([(1, 1, 10), (2, 2, 20), (3, 3, 30), (4, 4, 40), (5, 5, 50),
        (6, 6, 60)] : List (Nat × Nat × Nat)).map stampValue).drop
        (([(1, 1, 10), (2, 2, 20), (3, 3, 30), (4, 4, 40), (5, 5, 50),
          (6, 6, 60)] : List (Nat × Nat × Nat)).length - (4 : Int).toNat)) ∧
    (deliverNexts 4
      [(1, 1, 10), (2, 2, 20), (3, 3, 30), (4, 4, 40), (5, 5, 50), (6, 6, 60)]
      (SnapshotPlugin.freshSnapshotRef 0 0)).values.length = 4 ∧
    (deliverNexts 4
      [(1, 1, 10), (2, 2, 20), (3, 3, 30), (4, 4, 40), (5, 5, 50), (6, 6, 60)]
      (SnapshotPlugin.freshSnapshotRef 0 0)).valuesFlushed = 2 :=
  ⟨by decide,
   value_history_bounded_and_conserved 4 (by decide) 0 0
     [(1, 1, 10), (2, 2, 20), (3, 3, 30), (4, 4, 40), (5, 5, 50), (6, 6, 60)],
   by decide, by decide⟩

theorem reaches_iff (g : Nat → GraphRefE) (r x : Nat) :
    Reaches g r x ↔ x = r ∨ ∃ c ∈ childrenOf g r, Reaches g c x := by
  constructor
  · intro h
    cases h with
    | refl => exact Or.inl rfl
    | step hc hr => exact Or.inr ⟨_, hc, hr⟩
  · intro h
    rcases h with rfl | ⟨c, hc, hr⟩
    · exact Reaches.refl x
    · exact Reaches.step hc hr

theorem addSubscriptionRefs_succ (g : Nat → GraphRefE) (fuel ref : Nat) :
    addSubscriptionRefs g (fuel + 1) ref =
      (addSubscriptionRefsList g fuel (childrenOf g ref)).map
        (fun vs => ref :: vs) := rfl

theorem addSubscriptionRefs_covers (g : Nat → GraphRefE)
    (rank : Nat → Nat)
    (hrank : ∀ a b, b ∈ childrenOf g a → rank b < rank a) :
    ∀ (fuel ref : Nat), rank ref < fuel →
      ∃ vs, addSubscriptionRefs g fuel ref = some vs ∧
        ∀ x, (x ∈ vs ↔ Reaches g ref x) := by
  intro fuel
  induction fuel with
  | zero => intro ref h; omega
  | succ fuel ih =>
      intro ref href
      have hlist : ∀ (l : List Nat), (∀ c ∈ l, rank c < fuel) →
          ∃ ws, addSubscriptionRefsList g fuel l = some ws ∧
            ∀ x, (x ∈ ws ↔ ∃ c ∈ l, Reaches g c x) := by
        intro l
        induction l with
        | nil => intro _; exact ⟨[], rfl, by simp [addSubscriptionRefsList]⟩
        | cons c cs ihl =>
            intro hcs
            obtain ⟨vs, hvs, hmv⟩ := ih c (hcs c (by simp))
            obtain ⟨ws, hws, hmw⟩ := ihl (fun d hd => hcs d (by simp [hd]))
            refine ⟨vs ++ ws, ?_, ?_⟩
            · simp only [addSubscriptionRefsList, List.foldr_cons] at hws ⊢
              rw [hvs, hws]
            · intro x
              simp only [List.mem_append, hmv x, hmw x]
              constructor
              · rintro (h | ⟨d, hd, hr⟩)
                · exact ⟨c, by simp, h⟩
                · exact ⟨d, by simp [hd], hr⟩
              · rintro ⟨d, hd, hr⟩
                rcases List.mem_cons.mp hd with rfl | hd2
                · exact Or.inl hr
                · exact Or.inr ⟨d, hd2, hr⟩
      have hch : ∀ c ∈ childrenOf g ref, rank c < fuel := by
        intro c hc
        have := hrank ref c hc
        omega
      obtain ⟨ws, hws, hmw⟩ := hlist (childrenOf g ref) hch
      refine ⟨ref :: ws, ?_, ?_⟩
      · rw [addSubscriptionRefs_succ, hws]
        rfl
      · intro x
        exact (List.mem_cons).trans
          ((or_congr Iff.rfl (hmw x)).trans (reaches_iff g ref x).symm)

theorem addSubscriptionRefsList_covers (g : Nat → GraphRefE)
    (rank : Nat → Nat)
    (hrank : ∀ a b, b ∈ childrenOf g a → rank b < rank a) (fuel : Nat) :
    ∀ (l : List Nat), (∀ c ∈ l, rank c < fuel) →
      ∃ ws, addSubscriptionRefsList g fuel l = some ws ∧
        ∀ x, (x ∈ ws ↔ ∃ c ∈ l, Reaches g c x) := by
  intro l
  induction l with
  | nil => intro _; exact ⟨[], rfl, by simp [addSubscriptionRefsList]⟩
  | cons c cs ihl =>
      intro hcs
      obtain ⟨vs, hvs, hmv⟩ :=
        addSubscriptionRefs_covers g rank hrank fuel c (hcs c (by simp))
      obtain ⟨ws, hws, hmw⟩ := ihl (fun d hd => hcs d (by simp [hd]))
      refine ⟨vs ++ ws, ?_, ?_⟩
      · simp only [addSubscriptionRefsList, List.foldr_cons] at hws ⊢
        rw [hvs, hws]
      · intro x
        simp only [List.mem_append, hmv x, hmw x]
        constructor
        · rintro (h | ⟨d, hd, hr⟩)
          · exact ⟨c, by simp, h⟩
          · exact ⟨d, by simp [hd], hr⟩
        · rintro ⟨d, hd, hr⟩
          rcases List.mem_cons.mp hd with rfl | hd2
          · exact Or.inl hr
          · exact Or.inr ⟨d, hd2, hr⟩

theorem foldl_keyInsert_spec :
    ∀ (l acc : List Nat), acc.Nodup →
      (l.foldl keyInsert acc).Nodup ∧
      (∀ x, x ∈ l.foldl keyInsert acc ↔ x ∈ acc ∨ x ∈ l) := by
  intro l
  induction l with
  | nil =>
      intro acc h
      exact ⟨h, by simp⟩
  | cons c cs ih =>
      intro acc h
      have hstep : (keyInsert acc c).Nodup ∧
          ∀ x, (x ∈ keyInsert acc c ↔ x ∈ acc ∨ x = c) := by
        unfold keyInsert
        by_cases hc : c ∈ acc
        · rw [if_pos hc]
          refine ⟨h, fun x => ?_⟩
          constructor
          · exact Or.inl
          · rintro (hx | rfl)
            · exact hx
            · exact hc
        · rw [if_neg hc]
          refine ⟨?_, fun x => by simp⟩
          simp [List.nodup_append, h, hc]
      obtain ⟨h1, h2⟩ := ih (keyInsert acc c) hstep.1
      rw [List.foldl_cons]
      refine ⟨h1, fun x => ?_⟩
      rw [h2 x, hstep.2 x, List.mem_cons]
      tauto

/-- Claim C2, amended.  On an acyclic graph (one admitting a rank
function decreasing along merges/sources edges) and with enough fuel for
the depth of the start refs, the depth-first traversal of
getSubscriptionRefs_ terminates — including on diamond topologies — and
the key set of the resulting map contains every subscription reachable
from the sentinel sources, each exactly once; the underlying recursion,
however, re-enters a subscription once per path leading to it, as there
is no visited check before recursing. -/
theorem traversal_terminates_unique_keys (g : Nat → GraphRefE)
    (rank : Nat → Nat)
    (hrank : ∀ a b, b ∈ childrenOf g a → rank b < rank a)
    (fuel : Nat) (ss : List Nat) (hf : ∀ c ∈ ss, rank c < fuel) :
    ∃ ks, getSubscriptionRefs g fuel ss = some ks ∧ ks.Nodup ∧
      ∀ x, (x ∈ ks ↔ ∃ c ∈ ss, Reaches g c x) := by
  obtain ⟨ws, hws, hmw⟩ :=
    addSubscriptionRefsList_covers g rank hrank fuel ss hf
  obtain ⟨hnd, hmem⟩ := foldl_keyInsert_spec ws [] List.nodup_nil
  refine ⟨ws.foldl keyInsert [], ?_, hnd, ?_⟩
  · unfold getSubscriptionRefs
    rw [hws]
    rfl
  · intro x
    rw [hmem x]
    simp only [List.not_mem_nil, false_or]
    exact hmw x

/-- Claim C2, counterexample.  On the diamond graph the traversal
enters the shared subscription 3 twice — once per path — so it does not
visit each subscription exactly once: the visit sequence from ref 0 with
ample fuel is 0, 1, 3, 2, 3. -/
theorem addSubscriptionRefs_diamond_counterexample :
    addSubscriptionRefs gDiamond 5 0 = some [0, 1, 3, 2, 3] ∧
    ([0, 1, 3, 2, 3] : List Nat).count 3 = 2 ∧
    ¬ ([0, 1, 3, 2, 3] : List Nat).Nodup :=
  ⟨rfl, by decide, by decide⟩

theorem traversal_terminates_unique_keys_witness :
    (∀ a b, b ∈ childrenOf gDiamond a → rankDiamond b < rankDiamond a) ∧
    (∀ c ∈ ([0] : List Nat), rankDiamond c < 4) ∧
    (∃ ks, getSubscriptionRefs gDiamond 4 [0] = some ks ∧ ks.Nodup ∧
      ∀ x, (x ∈ ks ↔ ∃ c ∈ ([0] : List Nat), Reaches gDiamond c x)) := by
  have h1 : ∀ a b, b ∈ childrenOf gDiamond a → rankDiamond b < rankDiamond a := by
    intro a b hb
    match a with
    | 0 =>
        simp only [childrenOf, gDiamond, List.nil_append, List.mem_cons,
          List.mem_singleton, List.not_mem_nil, or_false] at hb
        rcases hb with rfl | rfl <;> decide
    | 1 =>
        simp only [childrenOf, gDiamond, List.nil_append,
          List.mem_singleton] at hb
        rw [hb]
        decide
    | 2 =>
        simp only [childrenOf, gDiamond, List.nil_append,
          List.mem_singleton] at hb
        rw [hb]
        decide
    | n + 3 =>
        simp [childrenOf, gDiamond] at hb
  have h2 : ∀ c ∈ ([0] : List Nat), rankDiamond c < 4 := by
    intro c hc
    rw [List.mem_singleton] at hc
    rw [hc]
    decide
  exact ⟨h1, h2,
    traversal_terminates_unique_keys gDiamond rankDiamond h1 4 [0] h2⟩

end RxjsSpy
